import Mathlib

/-!
Shallow embedding of the producer/consumer image pipeline in `Laba_3.cpp`:
a mutex-protected FIFO queue (`BlockingQueue`) shared by one producer and
`NUM_CONSUMERS` consumer threads, with the empty pair used as the
termination sentinel. Pure control flow and data flow are embedded as Lean
functions; the concurrent queue discipline is embedded as a small-step
interleaving relation whose atomic steps are the mutex-protected push and
pop bodies.
-/

set_option linter.unusedVariables false

/-- WorkItem models the queue element type in the source,
std::pair of two std::string values: `first` is the file name,
`second` is the full path (lines 57, 103). -/
structure WorkItem where
  first : String
  second : String
deriving DecidableEq

/-- The termination sentinel pushed by the producer (line 96): both
components are the empty string. -/
def sentinel : WorkItem := ⟨"", ""⟩

/-- The consumer end-of-stream test (line 107):
task.first.empty() && task.second.empty(). -/
def isSentinel (t : WorkItem) : Bool := t.first.isEmpty && t.second.isEmpty

/-- Models `isHiddenFile` (lines 60-62): reads file_name[0] and compares it
with the dot character. On the empty string, std::string operator[] at
position size() yields the null character, which is not a dot, so the
result is false. -/
def isHiddenFile (file_name : String) : Bool :=
  match file_name.data with
  | [] => false
  | c :: _ => c == '.'

/-- Suffix of a character list starting at its last dot, or none when no
dot occurs. Helper for the model of std::filesystem extension. -/
def lastDotSuffix : List Char → Option (List Char)
  | [] => none
  | c :: cs =>
    match lastDotSuffix cs with
    | some s => some s
    | none => if c == '.' then some (c :: cs) else none

/-- Models entry.path().extension().string() (line 80) applied to the
final file-name component: the substring from the last dot onward, except
that the names "." and ".." and a name whose only dot is its first
character have an empty extension. -/
def extensionOf (name : String) : String :=
  if name = "." ∨ name = ".." then ""
  else
    match lastDotSuffix name.data with
    | none => ""
    | some s => if s.length = name.data.length then "" else String.mk s

/-- The accepted-extension test of line 81:
ext == ".jpeg" || ext == ".jpg" || ext == ".png". -/
def extAccepted (ext : String) : Bool :=
  ext == ".jpeg" || ext == ".jpg" || ext == ".png"

/-- Source directory constant (line 52). -/
def INPUT_DIR : String := "input_images"

/-- Output directory constant (line 53). -/
def OUTPUT_DIR : String := "output_images"

/-- Worker-count constant (line 54). -/
def NUM_CONSUMERS : Nat := 4

/-- A directory entry as yielded by fs::directory_iterator in the producer
loop: the directory being iterated, the final file-name component, and the
result of entry.is_regular_file(). -/
structure DirEntry where
  parent : String
  name : String
  is_regular_file : Bool
deriving DecidableEq

/-- Models entry.path().string() (line 82) for an entry produced by
directory_iterator: the iterated directory joined with the file name. -/
def DirEntry.pathString (e : DirEntry) : String := e.parent ++ "/" ++ e.name

/-- One iteration of the producer enumeration loop (lines 65-91): skip
non-regular entries, skip names whose first character is a dot, push the
pair (file name, full path) when the extension is accepted, otherwise
skip. Returns the pushed item, if any. -/
def producerHandle (e : DirEntry) : Option WorkItem :=
  if !e.is_regular_file then none
  else if isHiddenFile e.name then none
  else if extAccepted (extensionOf e.name) then some ⟨e.name, e.pathString⟩
  else none

/-- The real work items the producer pushes for a given enumeration, in
enumeration order (lines 65-91). -/
def producerItems (entries : List DirEntry) : List WorkItem :=
  entries.filterMap producerHandle

/-- Failure of fs::directory_iterator construction or iteration (source
directory unreadable or missing): the constructor throws
std::filesystem::filesystem_error. -/
inductive EnumError
  | filesystemError
deriving DecidableEq

/-- The complete push sequence of the `producer` function (lines 64-98):
on successful enumeration, the accepted items followed by NUM_CONSUMERS
sentinels (lines 95-97); when the directory iterator throws, the exception
propagates out of `producer` before any push and the sentinel loop is
never reached, so nothing is pushed. -/
def producer : Except EnumError (List DirEntry) → List WorkItem
  | .error _ => []
  | .ok entries => producerItems entries ++ List.replicate NUM_CONSUMERS sentinel

/-- Number of consumer threads spawned by main (lines 150-153): one
emplace_back per iteration of `for i in [0, NUM_CONSUMERS)`. -/
def spawnedWorkerCount : Nat := (List.range NUM_CONSUMERS).length

/-- Outcome of the per-item processing step in the consumer (lines
120-134): cv::imread yields an empty image (read failure), or cv::imwrite
returns true (saved) or false (write failure). The image contents are
opaque to the pipeline, so the outcome is injected as a function of the
task. -/
inductive ProcOutcome
  | readFailure
  | writeSuccess
  | writeFailure
deriving DecidableEq

/-- Observable per-item events of one consumer loop, in order. -/
inductive Event
  | skippedHidden (name : String)
  | readError (path : String)
  | saved (outputPath : String)
  | writeError (outputPath : String)
deriving DecidableEq

/-- The output path built at line 129: OUTPUT_DIR + "/inverted_" + name. -/
def outputPathFor (name : String) : String := OUTPUT_DIR ++ "/inverted_" ++ name

/-- The consumer loop (lines 101-138) over the sequence of tasks it pops,
returning its log events: break on the sentinel, skip hidden names,
otherwise read the image and either report a read error, save the
inverted image, or report a write error; in every non-sentinel case the
loop continues with the next task. -/
def consumer (f : WorkItem → ProcOutcome) : List WorkItem → List Event
  | [] => []
  | t :: rest =>
    if isSentinel t then []
    else if isHiddenFile t.first then Event.skippedHidden t.first :: consumer f rest
    else
      match f t with
      | .readFailure => Event.readError t.second :: consumer f rest
      | .writeSuccess => Event.saved (outputPathFor t.first) :: consumer f rest
      | .writeFailure => Event.writeError (outputPathFor t.first) :: consumer f rest

/-- Same loop as `consumer`, returning the tasks on which the processing
step (the cv::imread call at line 120) is invoked. Each outcome branch of
the match continues the loop, mirroring the three `continue`-equivalent
paths of lines 121-134. -/
def consumerAttempted (f : WorkItem → ProcOutcome) : List WorkItem → List WorkItem
  | [] => []
  | t :: rest =>
    if isSentinel t then []
    else if isHiddenFile t.first then consumerAttempted f rest
    else
      match f t with
      | .readFailure => t :: consumerAttempted f rest
      | .writeSuccess => t :: consumerAttempted f rest
      | .writeFailure => t :: consumerAttempted f rest

/-- An event that the spec counts as a failed item. -/
def eventIsFailure : Event → Bool
  | .readError _ => true
  | .writeError _ => true
  | _ => false

/-- An event that the spec counts as a processed item. -/
def eventIsProcessed : Event → Bool
  | .saved _ => true
  | _ => false

/-- Failed-item count derivable from a run log. -/
def failedCount (evs : List Event) : Nat := evs.countP eventIsFailure

/-- Processed-item count derivable from a run log. -/
def processedCount (evs : List Event) : Nat := evs.countP eventIsProcessed

/-- Model of `main` (lines 141-163) with the consumer side collapsed to
its sequential observables: the per-item events of consuming the full
push sequence, then, after joining producer and consumers, the one final
line main prints (line 161) and the process exit code (line 162). main
keeps no counters, so the final report is built from neither the events
nor the outcomes. -/
def mainRun (r : Except EnumError (List DirEntry)) (f : WorkItem → ProcOutcome) :
    List Event × String × Nat :=
  (consumer f (producer r), "[Main] All tasks completed", 0)

/-- The wait predicate of line 36: the lambda passed to cond_var.wait,
`!queue.empty()`, re-checked after every wake-up. -/
def waitCondition (q : List WorkItem) : Bool := !q.isEmpty

/-- The body of BlockingQueue pop after cond_var.wait returns (lines
38-43): if the queue is empty return false, otherwise read the front
element, remove it, and return true. -/
def popAfterWait (q : List WorkItem) : Bool × Option WorkItem × List WorkItem :=
  if q.isEmpty then (false, none, q)
  else (true, q.head?, q.tail)

/-- The record the embedding keeps for each consumer thread: the values it
has popped so far, in order, and whether its loop has exited (line 108
`break` taken on the first sentinel popped). -/
structure Worker where
  hist : List WorkItem
  done : Bool
deriving DecidableEq

/-- Interleaving state of the running pipeline: the pushes the producer
has not performed yet (in program order), the queue contents (head =
front), the ghost sequence of all popped values in pop order, and the
consumer threads. -/
structure SysState where
  toPush : List WorkItem
  queue : List WorkItem
  popped : List WorkItem
  workers : List Worker
deriving DecidableEq

/-- One atomic step of the pipeline. `push` is the mutex-protected body of
BlockingQueue push (lines 22-30): append the next value at the tail.
`pop` is the mutex-protected body of BlockingQueue pop taken by a
consumer whose loop is still running (lines 33-44 with line 36 waiting
for a non-empty queue): remove the head, record it in that consumer, and
exit the loop iff the value is the sentinel (lines 104-109). A consumer
whose loop has exited performs no further queue operation. -/
inductive Step : SysState → SysState → Prop
  | push (v : WorkItem) (rest q p : List WorkItem) (ws : List Worker) :
      Step ⟨v :: rest, q, p, ws⟩ ⟨rest, q ++ [v], p, ws⟩
  | pop (tp : List WorkItem) (v : WorkItem) (q p : List WorkItem) (ws : List Worker)
      (i : Nat) (w : Worker) (hi : ws.get? i = some w) (hrun : w.done = false) :
      Step ⟨tp, v :: q, p, ws⟩ ⟨tp, q, p ++ [v], ws.set i ⟨w.hist ++ [v], isSentinel v⟩⟩

/-- Finitely many interleaved steps. -/
def Exec : SysState → SysState → Prop := Relation.ReflTransGen Step

/-- Pipeline start state in which the producer still has to push the
whole sequence l0 and the queue is empty, with W fresh consumers. -/
def initProducerState (l0 : List WorkItem) (W : Nat) : SysState :=
  ⟨l0, [], [], List.replicate W ⟨[], false⟩⟩

/-- Start state in which the queue is preloaded with q0 and the producer
has nothing left to push, with W fresh consumers. -/
def initQueueState (q0 : List WorkItem) (W : Nat) : SysState :=
  ⟨[], q0, [], List.replicate W ⟨[], false⟩⟩

/-- A state from which no step is possible: the producer is finished and
every still-running consumer is blocked inside cond_var.wait. -/
def Stuck (st : SysState) : Prop := ∀ st', ¬ Step st st'

/-- All values popped across the consumers, consumer-major. -/
def joinHists (ws : List Worker) : List WorkItem := (ws.map Worker.hist).flatten

/-- Per-consumer loop invariant: a consumer that has exited popped
exactly one sentinel, as its last value; a running consumer has popped no
sentinel. -/
def WInv (w : Worker) : Prop :=
  (w.done = true → ∃ h, w.hist = h ++ [sentinel] ∧ sentinel ∉ h) ∧
  (w.done = false → sentinel ∉ w.hist)

/-- Global invariant of the interleaving semantics, relative to the full
push sequence l0 and the consumer count W. -/
def PipelineInv (l0 : List WorkItem) (W : Nat) (st : SysState) : Prop :=
  st.popped ++ st.queue ++ st.toPush = l0 ∧
  (joinHists st.workers).Perm st.popped ∧
  st.workers.length = W ∧
  ∀ w ∈ st.workers, WInv w

/-- Strictly decreasing step measure: every step of the pipeline consumes
it, so every execution is finite. -/
def stepMeasure (st : SysState) : Nat := 2 * st.toPush.length + st.queue.length

/-- Termination behaviour of the worker pool on a preloaded queue q0 with
W consumers: every step strictly decreases a natural measure (so every
execution is finite), every reachable stuck state has all consumer loops
exited (no consumer blocks forever), every exited consumer popped exactly
one sentinel and popped it last, every running consumer has popped no
sentinel, and a consumer whose loop has exited never changes again (no
pop after the break). -/
def TerminationSpec (q0 : List WorkItem) (W : Nat) : Prop :=
  (∀ st st', Step st st' → stepMeasure st' < stepMeasure st) ∧
  (∀ st, Exec (initQueueState q0 W) st → Stuck st → ∀ w ∈ st.workers, w.done = true) ∧
  (∀ st, Exec (initQueueState q0 W) st → ∀ w ∈ st.workers,
    (w.done = true → ∃ h, w.hist = h ++ [sentinel] ∧ sentinel ∉ h) ∧
    (w.done = false → sentinel ∉ w.hist)) ∧
  (∀ st st' i w, Step st st' → st.workers.get? i = some w → w.done = true →
    st'.workers.get? i = some w)

/-- A sample directory entry: a regular file a.jpg in the input
directory. -/
def entryA : DirEntry := ⟨"input_images", "a.jpg", true⟩

/-- The work item the producer builds from entryA. -/
def itemA : WorkItem := ⟨"a.jpg", "input_images/a.jpg"⟩

lemma string_data_append (a b : String) : (a ++ b).data = a.data ++ b.data := by
  cases a
  cases b
  rfl

lemma isSentinel_iff (t : WorkItem) : isSentinel t = true ↔ t = sentinel := by
  cases t with
  | mk f s =>
    simp [isSentinel, sentinel, Bool.and_eq_true, String.isEmpty_iff]

lemma isSentinel_sentinel : isSentinel sentinel = true := by decide

lemma isSentinel_eq_false_of_ne {t : WorkItem} (h : t ≠ sentinel) : isSentinel t = false := by
  cases hs : isSentinel t with
  | false => rfl
  | true => exact absurd ((isSentinel_iff t).mp hs) h

lemma joinHists_nil : joinHists [] = [] := rfl

lemma joinHists_cons (a : Worker) (tl : List Worker) :
    joinHists (a :: tl) = a.hist ++ joinHists tl := by
  simp [joinHists]

lemma joinHists_replicate_fresh (W : Nat) :
    joinHists (List.replicate W ⟨[], false⟩) = [] := by
  induction W with
  | zero => rfl
  | succ k ih => rw [List.replicate_succ, joinHists_cons, ih]; rfl

lemma wInv_fresh : WInv ⟨[], false⟩ :=
  ⟨fun h => Bool.noConfusion h, fun _ => List.not_mem_nil sentinel⟩

lemma joinHists_set_perm (ws : List Worker) (i : Nat) (w : Worker) (v : WorkItem) (b : Bool)
    (h : ws.get? i = some w) :
    (joinHists (ws.set i ⟨w.hist ++ [v], b⟩)).Perm (joinHists ws ++ [v]) := by
  induction ws generalizing i with
  | nil => simp at h
  | cons a tl ih =>
    cases i with
    | zero =>
      simp only [List.get?_cons_zero, Option.some.injEq] at h
      subst h
      simp only [List.set, joinHists_cons, List.append_assoc]
      have hc : ([v] ++ joinHists tl).Perm (joinHists tl ++ [v]) := List.perm_append_comm
      exact hc.append_left a.hist
    | succ i =>
      simp only [List.get?_cons_succ] at h
      simp only [List.set, joinHists_cons, List.append_assoc]
      exact (ih i h).append_left a.hist

lemma pipelineInv_step {l0 : List WorkItem} {W : Nat} {st st' : SysState}
    (hinv : PipelineInv l0 W st) (hstep : Step st st') : PipelineInv l0 W st' := by
  obtain ⟨h1, h2, h3, h4⟩ := hinv
  cases hstep with
  | push v rest q p ws =>
    refine ⟨?_, h2, h3, h4⟩
    rw [← h1]
    simp
  | pop tp v q p ws i w hi hrun =>
    have hwmem : w ∈ ws := List.get?_mem hi
    refine ⟨?_, ?_, ?_, ?_⟩
    · rw [← h1]
      simp
    · exact (joinHists_set_perm ws i w v (isSentinel v) hi).trans (h2.append_right [v])
    · rw [List.length_set]
      exact h3
    · intro w' hw'
      rcases List.mem_or_eq_of_mem_set hw' with hmem | rfl
      · exact h4 w' hmem
      · constructor
        · intro hd
          have hv : v = sentinel := (isSentinel_iff v).mp hd
          refine ⟨w.hist, ?_, (h4 w hwmem).2 hrun⟩
          rw [hv]
        · intro hd
          have hv : v ≠ sentinel := by
            intro e
            rw [e, isSentinel_sentinel] at hd
            exact Bool.noConfusion hd
          intro hmem
          rcases List.mem_append.mp hmem with hh | hv'
          · exact (h4 w hwmem).2 hrun hh
          · have hsv : sentinel = v := by simpa using hv'
            exact hv hsv.symm

lemma pipelineInv_exec {l0 : List WorkItem} {W : Nat} {s0 st : SysState}
    (h0 : PipelineInv l0 W s0) (h : Exec s0 st) : PipelineInv l0 W st := by
  induction h with
  | refl => exact h0
  | tail hsteps hstep ih => exact pipelineInv_step ih hstep

lemma pipelineInv_initProducer (l0 : List WorkItem) (W : Nat) :
    PipelineInv l0 W (initProducerState l0 W) := by
  refine ⟨by simp [initProducerState], ?_, by simp [initProducerState], ?_⟩
  · rw [initProducerState, joinHists_replicate_fresh]
  · intro w hw
    rw [initProducerState] at hw
    obtain rfl := List.eq_of_mem_replicate hw
    exact wInv_fresh

lemma pipelineInv_initQueue (q0 : List WorkItem) (W : Nat) :
    PipelineInv q0 W (initQueueState q0 W) := by
  refine ⟨by simp [initQueueState], ?_, by simp [initQueueState], ?_⟩
  · rw [initQueueState, joinHists_replicate_fresh]
  · intro w hw
    rw [initQueueState] at hw
    obtain rfl := List.eq_of_mem_replicate hw
    exact wInv_fresh

lemma countP_isSentinel_of_not_mem {l : List WorkItem} (h : sentinel ∉ l) :
    l.countP isSentinel = 0 :=
  List.countP_eq_zero.mpr (fun a ha hsa => h (((isSentinel_iff a).mp hsa) ▸ ha))

lemma countP_isSentinel_replicate (n : Nat) :
    (List.replicate n sentinel).countP isSentinel = n := by
  rw [List.countP_eq_length.mpr, List.length_replicate]
  intro a ha
  rw [List.eq_of_mem_replicate ha]
  exact isSentinel_sentinel

lemma countP_isSentinel_joinHists (ws : List Worker) (h : ∀ w ∈ ws, WInv w) :
    (joinHists ws).countP isSentinel = ws.countP (fun w => w.done) := by
  induction ws with
  | nil => simp [joinHists_nil]
  | cons a tl ih =>
    have ha := h a (by simp)
    have htl := ih (fun w hw => h w (List.mem_cons_of_mem a hw))
    rw [joinHists_cons, List.countP_append, htl, List.countP_cons]
    cases had : a.done with
    | true =>
      obtain ⟨h', he, hnot⟩ := ha.1 had
      rw [he, List.countP_append, countP_isSentinel_of_not_mem hnot]
      simp [isSentinel_sentinel, had]
      omega
    | false =>
      rw [countP_isSentinel_of_not_mem (ha.2 had)]
      simp [had]

lemma stepMeasure_decrease {st st' : SysState} (h : Step st st') :
    stepMeasure st' < stepMeasure st := by
  cases h with
  | push v rest q p ws => simp [stepMeasure]; omega
  | pop tp v q p ws i w hi hrun => simp [stepMeasure]

lemma stuck_toPush_nil {st : SysState} (h : Stuck st) : st.toPush = [] := by
  rcases st with ⟨tp, q, p, ws⟩
  cases tp with
  | nil => rfl
  | cons v rest => exact absurd (Step.push v rest q p ws) (h _)

lemma stuck_queue_nil {st : SysState} (h : Stuck st) (i : Nat) (w : Worker)
    (hi : st.workers.get? i = some w) (hrun : w.done = false) : st.queue = [] := by
  rcases st with ⟨tp, q, p, ws⟩
  cases q with
  | nil => rfl
  | cons v q' => exact absurd (Step.pop tp v q' p ws i w hi hrun) (h _)

lemma stuck_all_done {q0 : List WorkItem} {W : Nat} {st : SysState}
    (hS : W ≤ q0.countP isSentinel)
    (hexec : Exec (initQueueState q0 W) st) (hstuck : Stuck st) :
    ∀ w ∈ st.workers, w.done = true := by
  obtain ⟨h1, h2, h3, h4⟩ := pipelineInv_exec (pipelineInv_initQueue q0 W) hexec
  by_contra hcon
  push_neg at hcon
  obtain ⟨w, hw, hwdone⟩ := hcon
  simp only [ne_eq, Bool.not_eq_true] at hwdone
  obtain ⟨i, hi⟩ := List.get?_of_mem hw
  have htp : st.toPush = [] := stuck_toPush_nil hstuck
  have hq : st.queue = [] := stuck_queue_nil hstuck i w hi hwdone
  rw [htp, hq] at h1
  simp at h1
  have hjoin := countP_isSentinel_joinHists st.workers h4
  have hperm := h2.countP_eq isSentinel
  have hlt : st.workers.countP (fun w => w.done) < st.workers.length := by
    have hle : st.workers.countP (fun w => w.done) ≤ st.workers.length :=
      List.countP_le_length _
    rcases Nat.eq_or_lt_of_le hle with he | hl
    · exfalso
      have := List.countP_eq_length.mp he w hw
      rw [hwdone] at this
      exact Bool.noConfusion this
    · exact hl
  rw [h3] at hlt
  rw [hjoin, h1] at hperm
  omega

/-- C2: with at least one sentinel per worker in the queue, every worker
loop terminates, stops at its first sentinel, observes exactly one
sentinel, performs no pop after it, and no worker blocks forever. -/
theorem consumer_pool_termination (q0 : List WorkItem) (W : Nat)
    (hS : W ≤ q0.countP isSentinel) : TerminationSpec q0 W := by
  refine ⟨fun st st' h => stepMeasure_decrease h,
    fun st he hs => stuck_all_done hS he hs, ?_, ?_⟩
  · intro st he w hw
    exact (pipelineInv_exec (pipelineInv_initQueue q0 W) he).2.2.2 w hw
  · intro st st' i w hstep hi hdone
    cases hstep with
    | push v rest q p ws => exact hi
    | pop tp v q p ws j wj hj hrun =>
      have hne : j ≠ i := by
        intro e
        subst e
        rw [hi] at hj
        injection hj with hjw
        rw [← hjw] at hrun
        rw [hdone] at hrun
        exact Bool.noConfusion hrun
      have hi' : ws[i]? = some w := by
        rw [← List.get?_eq_getElem?]
        exact hi
      show (ws.set j ⟨wj.hist ++ [v], isSentinel v⟩).get? i = some w
      rw [List.get?_eq_getElem?, List.getElem?_set_ne hne]
      exact hi'

theorem consumer_pool_termination_witness :
    1 ≤ List.countP isSentinel [sentinel] ∧ TerminationSpec [sentinel] 1 :=
  ⟨by decide, consumer_pool_termination [sentinel] 1 (by decide)⟩

/-- C1: in any complete run (producer finished, all worker loops exited)
the multiset of non-sentinel values popped across the workers is exactly
the multiset of accepted items the producer pushed: nothing lost, nothing
delivered twice. -/
theorem queue_no_loss_no_duplication (W : Nat) (items : List WorkItem) (st : SysState)
    (hW : 1 ≤ W) (hItems : sentinel ∉ items)
    (hexec : Exec (initProducerState (items ++ List.replicate W sentinel) W) st)
    (htp : st.toPush = []) (hdone : ∀ w ∈ st.workers, w.done = true) :
    ((joinHists st.workers).filter (fun t => !isSentinel t)).Perm items := by
  obtain ⟨h1, h2, h3, h4⟩ := pipelineInv_exec (pipelineInv_initProducer _ W) hexec
  rw [htp, List.append_nil] at h1
  have hcntP : st.popped.countP isSentinel = W := by
    have hjoin := countP_isSentinel_joinHists st.workers h4
    have hperm := h2.countP_eq isSentinel
    have hdcnt : st.workers.countP (fun w => w.done) = W := by
      rw [← h3]
      exact List.countP_eq_length.mpr (fun w hw => hdone w hw)
    omega
  have hl0 : (items ++ List.replicate W sentinel).countP isSentinel = W := by
    rw [List.countP_append, countP_isSentinel_of_not_mem hItems, countP_isSentinel_replicate]
    omega
  have hcntQ : st.queue.countP isSentinel = 0 := by
    have hc := congrArg (List.countP isSentinel) h1
    rw [List.countP_append, hcntP, hl0] at hc
    omega
  have hqnil : st.queue = [] := by
    rcases List.eq_nil_or_concat st.queue with hn | ⟨L, x, hLx⟩
    · exact hn
    · exfalso
      rw [List.concat_eq_append] at hLx
      rw [hLx] at h1 hcntQ
      obtain ⟨k, rfl⟩ : ∃ k, W = k + 1 := ⟨W - 1, by omega⟩
      have hrev := congrArg List.reverse h1
      rw [List.reverse_append, List.reverse_append, List.reverse_append,
        List.reverse_replicate, List.replicate_succ] at hrev
      simp only [List.reverse_singleton, List.cons_append, List.singleton_append] at hrev
      injection hrev with hx hrest
      have hxmem : x ∈ L ++ [x] := by simp
      have hpos : 0 < (L ++ [x]).countP isSentinel :=
        List.countP_pos_iff.mpr ⟨x, hxmem, by rw [hx]; exact isSentinel_sentinel⟩
      omega
  rw [hqnil, List.append_nil] at h1
  have hfilter := h2.filter (fun t => !isSentinel t)
  rw [h1, List.filter_append] at hfilter
  have hfi : items.filter (fun t => !isSentinel t) = items :=
    List.filter_eq_self.mpr (fun a ha => by
      rw [isSentinel_eq_false_of_ne (fun e => hItems (e ▸ ha))]
      rfl)
  have hfr : (List.replicate W sentinel).filter (fun t => !isSentinel t) = [] := by
    apply List.filter_eq_nil_iff.mpr
    intro a ha
    rw [List.eq_of_mem_replicate ha]
    simp [isSentinel_sentinel]
  rw [hfi, hfr, List.append_nil] at hfilter
  exact hfilter

theorem queue_no_loss_no_duplication_witness :
    (1 : Nat) ≤ 1 ∧ sentinel ∉ [itemA] ∧
    ((joinHists [⟨[itemA, sentinel], true⟩]).filter (fun t => !isSentinel t)).Perm [itemA] := by
  refine ⟨le_refl 1, by decide, ?_⟩
  have h1 : Step (initProducerState [itemA, sentinel] 1)
      ⟨[sentinel], [itemA], [], [⟨[], false⟩]⟩ := by
    have h := Step.push itemA [sentinel] [] [] [⟨[], false⟩]
    simpa [initProducerState] using h
  have h2 : Step ⟨[sentinel], [itemA], [], [⟨[], false⟩]⟩
      ⟨[], [itemA, sentinel], [], [⟨[], false⟩]⟩ := by
    have h := Step.push sentinel [] [itemA] [] [⟨[], false⟩]
    simpa using h
  have h3 : Step ⟨[], [itemA, sentinel], [], [⟨[], false⟩]⟩
      ⟨[], [sentinel], [itemA], [⟨[itemA], false⟩]⟩ := by
    have h := Step.pop [] itemA [sentinel] [] [⟨[], false⟩] 0 ⟨[], false⟩ rfl rfl
    have e : (([⟨[], false⟩] : List Worker).set 0 ⟨[] ++ [itemA], isSentinel itemA⟩) =
        [⟨[itemA], false⟩] := by decide
    rw [e] at h
    simpa using h
  have h4 : Step ⟨[], [sentinel], [itemA], [⟨[itemA], false⟩]⟩
      ⟨[], [], [itemA, sentinel], [⟨[itemA, sentinel], true⟩]⟩ := by
    have h := Step.pop [] sentinel [] [itemA] [⟨[itemA], false⟩] 0 ⟨[itemA], false⟩ rfl rfl
    have e : (([⟨[itemA], false⟩] : List Worker).set 0
        ⟨[itemA] ++ [sentinel], isSentinel sentinel⟩) = [⟨[itemA, sentinel], true⟩] := by decide
    rw [e] at h
    simpa using h
  have hexec : Exec (initProducerState ([itemA] ++ List.replicate 1 sentinel) 1)
      ⟨[], [], [itemA, sentinel], [⟨[itemA, sentinel], true⟩]⟩ := by
    have he : ([itemA] ++ List.replicate 1 sentinel) = [itemA, sentinel] := rfl
    rw [he]
    exact Relation.ReflTransGen.head h1 (Relation.ReflTransGen.head h2
      (Relation.ReflTransGen.head h3 (Relation.ReflTransGen.head h4
        Relation.ReflTransGen.refl)))
  exact queue_no_loss_no_duplication 1 [itemA] _ (le_refl 1) (by decide) hexec rfl (by decide)

/-- C4: after the wait condition holds, pop removes and returns the head;
if the wait condition is false the queue really is empty; no pop can
complete from a state whose queue is empty (only pushes can happen, and
they leave the popped sequence unchanged); and across any execution the
global pop order, current queue, and pending pushes concatenate to the
single push sequence, so values are popped in exactly the order the
producer pushed them (FIFO). -/
theorem blocking_pop_fifo :
    (∀ q : List WorkItem, waitCondition q = true →
      (popAfterWait q).1 = true ∧ (popAfterWait q).2.1 = q.head? ∧
        (popAfterWait q).2.2 = q.tail) ∧
    (∀ q : List WorkItem, waitCondition q = false → q = []) ∧
    (∀ (tp p : List WorkItem) (ws : List Worker) (st' : SysState),
      Step ⟨tp, [], p, ws⟩ st' → st'.popped = p) ∧
    (∀ (l0 : List WorkItem) (W : Nat) (st : SysState),
      Exec (initProducerState l0 W) st → st.popped ++ st.queue ++ st.toPush = l0) := by
  refine ⟨?_, ?_, ?_, ?_⟩
  · intro q h
    have hq : q.isEmpty = false := by simpa [waitCondition] using h
    simp [popAfterWait, hq]
  · intro q h
    have hq : q.isEmpty = true := by simpa [waitCondition] using h
    exact List.isEmpty_iff.mp hq
  · intro tp p ws st' h
    cases h with
    | push v rest q2 p2 ws2 => rfl
  · intro l0 W st he
    exact (pipelineInv_exec (pipelineInv_initProducer l0 W) he).1

theorem blocking_pop_fifo_witness :
    waitCondition [sentinel] = true ∧ (popAfterWait [sentinel]).1 = true ∧
    (initProducerState [sentinel] 1).popped ++ (initProducerState [sentinel] 1).queue ++
      (initProducerState [sentinel] 1).toPush = [sentinel] :=
  ⟨by decide, (blocking_pop_fifo.1 [sentinel] (by decide)).1,
    blocking_pop_fifo.2.2.2 [sentinel] 1 (initProducerState [sentinel] 1)
      Relation.ReflTransGen.refl⟩

/-- C10: whenever the wait condition of line 36 holds on return from
cond_var.wait, the defensive empty-queue branch at line 38 is not taken
and pop returns true. -/
theorem pop_always_returns_true (q : List WorkItem) (h : waitCondition q = true) :
    (popAfterWait q).1 = true := by
  have hq : q.isEmpty = false := by simpa [waitCondition] using h
  simp [popAfterWait, hq]

theorem pop_always_returns_true_witness :
    waitCondition [sentinel] = true ∧ (popAfterWait [sentinel]).1 = true :=
  ⟨by decide, pop_always_returns_true [sentinel] (by decide)⟩

lemma producerHandle_eq_some {e : DirEntry} {t : WorkItem} :
    producerHandle e = some t ↔
      (e.is_regular_file = true ∧ isHiddenFile e.name = false ∧
       extAccepted (extensionOf e.name) = true ∧ t = ⟨e.name, e.pathString⟩) := by
  cases h1 : e.is_regular_file <;> cases h2 : isHiddenFile e.name <;>
    cases h3 : extAccepted (extensionOf e.name) <;>
      simp [producerHandle, h1, h2, h3, eq_comm]

lemma accepted_name_ne_empty {name : String}
    (h : extAccepted (extensionOf name) = true) : name ≠ "" := by
  intro he
  subst he
  revert h
  decide

lemma pathString_ne_empty (e : DirEntry) : e.pathString ≠ "" := by
  rw [DirEntry.pathString]
  intro h
  have hd := congrArg String.data h
  have hslash : ("/" : String).data = ['/'] := rfl
  simp [string_data_append, hslash] at hd

lemma producerItems_clean {entries : List DirEntry} {t : WorkItem}
    (h : t ∈ producerItems entries) :
    t.first ≠ "" ∧ t.second ≠ "" ∧ isSentinel t = false ∧ isHiddenFile t.first = false := by
  rw [producerItems, List.mem_filterMap] at h
  obtain ⟨e, he, hsome⟩ := h
  obtain ⟨hr, hh, hext, rfl⟩ := producerHandle_eq_some.mp hsome
  have hname : e.name ≠ "" := accepted_name_ne_empty hext
  have hne : e.name.isEmpty = false := by
    cases hni : e.name.isEmpty
    · rfl
    · exact absurd ((String.isEmpty_iff e.name).mp hni) hname
  refine ⟨hname, pathString_ne_empty e, ?_, hh⟩
  rw [isSentinel]
  simp [hne]

/-- C9: every work item the producer builds from a directory entry has a
non-empty file name and a non-empty path, so the consumer sentinel test
never classifies a real item as end-of-stream. -/
theorem real_items_never_sentinel (entries : List DirEntry) (t : WorkItem)
    (h : t ∈ producerItems entries) :
    t.first ≠ "" ∧ t.second ≠ "" ∧ isSentinel t = false := by
  obtain ⟨a, b, c, _⟩ := producerItems_clean h
  exact ⟨a, b, c⟩

theorem real_items_never_sentinel_witness :
    itemA ∈ producerItems [entryA] ∧
      (itemA.first ≠ "" ∧ itemA.second ≠ "" ∧ isSentinel itemA = false) :=
  ⟨by decide, real_items_never_sentinel [entryA] itemA (by decide)⟩

/-- C3: after any successful enumeration, the push sequence contains
exactly NUM_CONSUMERS sentinels (none among the real items, all appended
at the end), and main spawns exactly NUM_CONSUMERS consumer threads from
the same constant. -/
theorem producer_sentinel_count_matches_workers (entries : List DirEntry) :
    (producer (Except.ok entries)).countP isSentinel = NUM_CONSUMERS ∧
    (producerItems entries).countP isSentinel = 0 ∧
    producer (Except.ok entries) =
      producerItems entries ++ List.replicate NUM_CONSUMERS sentinel ∧
    spawnedWorkerCount = NUM_CONSUMERS := by
  have h0 : (producerItems entries).countP isSentinel = 0 :=
    List.countP_eq_zero.mpr (fun t ht hs => by
      rw [(producerItems_clean ht).2.2.1] at hs
      exact Bool.noConfusion hs)
  refine ⟨?_, h0, rfl, by rw [spawnedWorkerCount, List.length_range]⟩
  show (producerItems entries ++ List.replicate NUM_CONSUMERS sentinel).countP isSentinel =
    NUM_CONSUMERS
  rw [List.countP_append, h0, countP_isSentinel_replicate]
  omega

lemma producerItems_filter (entries : List DirEntry) :
    producerItems entries =
      (entries.filter (fun e => e.is_regular_file && !isHiddenFile e.name &&
        extAccepted (extensionOf e.name))).map (fun e => ⟨e.name, e.pathString⟩) := by
  induction entries with
  | nil => rfl
  | cons e es ih =>
    rw [producerItems, List.filterMap_cons, List.filter_cons]
    cases hpe : producerHandle e with
    | none =>
      have hcond : (e.is_regular_file && !isHiddenFile e.name &&
          extAccepted (extensionOf e.name)) = false := by
        cases h1 : e.is_regular_file <;> cases h2 : isHiddenFile e.name <;>
          cases h3 : extAccepted (extensionOf e.name) <;> simp [h1, h2, h3] <;>
            exact absurd (producerHandle_eq_some.mpr ⟨h1, h2, h3, rfl⟩)
              (by rw [hpe]; exact fun hc => Option.noConfusion hc)
      rw [hcond]
      simpa [producerItems] using ih
    | some t =>
      obtain ⟨h1, h2, h3, rfl⟩ := producerHandle_eq_some.mp hpe
      have hcond : (e.is_regular_file && !isHiddenFile e.name &&
          extAccepted (extensionOf e.name)) = true := by simp [h1, h2, h3]
      rw [hcond]
      simpa [producerItems] using ih

lemma consumerAttempted_append_clean (f : WorkItem → ProcOutcome) (l rest : List WorkItem)
    (h : ∀ t ∈ l, isSentinel t = false ∧ isHiddenFile t.first = false) :
    consumerAttempted f (l ++ rest) = l ++ consumerAttempted f rest := by
  induction l with
  | nil => simp
  | cons t l2 ih =>
    obtain ⟨hs, hh⟩ := h t (by simp)
    rw [List.cons_append]
    cases hf : f t <;>
      simp [consumerAttempted, hs, hh, hf, ih (fun u hu => h u (List.mem_cons_of_mem t hu))]

lemma consumerAttempted_sentinel_head (f : WorkItem → ProcOutcome) (rest : List WorkItem) :
    consumerAttempted f (sentinel :: rest) = [] := by
  simp [consumerAttempted, isSentinel_sentinel]

/-- C5: an entry reaches the processing step iff it is a regular file, its
name does not begin with a dot, and its extension is .jpeg, .jpg or .png;
the items reaching processing are exactly the accepted entries, in order,
and the code-level accept test coincides with that three-way condition. -/
theorem filter_correctness (f : WorkItem → ProcOutcome) (entries : List DirEntry) :
    consumerAttempted f (producer (Except.ok entries)) =
      (entries.filter (fun e => e.is_regular_file && !isHiddenFile e.name &&
        extAccepted (extensionOf e.name))).map (fun e => ⟨e.name, e.pathString⟩) ∧
    ∀ e : DirEntry,
      (e.is_regular_file && !isHiddenFile e.name && extAccepted (extensionOf e.name)) = true ↔
      (e.is_regular_file = true ∧ isHiddenFile e.name = false ∧
        (extensionOf e.name = ".jpeg" ∨ extensionOf e.name = ".jpg" ∨
          extensionOf e.name = ".png")) := by
  constructor
  · show consumerAttempted f
      (producerItems entries ++ List.replicate NUM_CONSUMERS sentinel) = _
    rw [consumerAttempted_append_clean f _ _
      (fun t ht => ⟨(producerItems_clean ht).2.2.1, (producerItems_clean ht).2.2.2⟩)]
    rw [show List.replicate NUM_CONSUMERS sentinel = sentinel :: List.replicate 3 sentinel
      from rfl]
    rw [consumerAttempted_sentinel_head, List.append_nil]
    exact producerItems_filter entries
  · intro e
    simp only [Bool.and_eq_true, Bool.not_eq_true', extAccepted, Bool.or_eq_true, beq_iff_eq]
    tauto

/-- C7: which tasks are attempted does not depend on the processing
outcomes at all: for every outcome function the worker attempts exactly
the non-hidden tasks before the first sentinel, so a failed item never
stops the loop or hides a later item. -/
theorem failure_isolation (f : WorkItem → ProcOutcome) (ts : List WorkItem) :
    consumerAttempted f ts =
      (ts.takeWhile (fun t => !isSentinel t)).filter (fun t => !isHiddenFile t.first) := by
  induction ts with
  | nil => rfl
  | cons t rest ih =>
    cases hs : isSentinel t with
    | true => simp [consumerAttempted, List.takeWhile_cons, hs]
    | false =>
      cases hh : isHiddenFile t.first with
      | true => simp [consumerAttempted, List.takeWhile_cons, hs, hh, ih]
      | false =>
        cases hf : f t <;> simp [consumerAttempted, List.takeWhile_cons, hs, hh, hf, ih]

/-- C6 counterexample: a run whose single accepted item fails to read has
failed count 1 and processed count 0 derivable from its event log, a run
whose single item succeeds has failed count 0 and processed count 1, yet
main emits exactly the same final report for both — the fixed completion
line and exit code 0 — so the pipeline does not report aggregate
processed/skipped/failed counts. -/
theorem main_reports_no_aggregate_counts_cex :
    failedCount (mainRun (Except.ok [entryA]) (fun _ => ProcOutcome.readFailure)).1 = 1 ∧
    processedCount (mainRun (Except.ok [entryA]) (fun _ => ProcOutcome.readFailure)).1 = 0 ∧
    failedCount (mainRun (Except.ok [entryA]) (fun _ => ProcOutcome.writeSuccess)).1 = 0 ∧
    processedCount (mainRun (Except.ok [entryA]) (fun _ => ProcOutcome.writeSuccess)).1 = 1 ∧
    (mainRun (Except.ok [entryA]) (fun _ => ProcOutcome.readFailure)).2 =
      (mainRun (Except.ok [entryA]) (fun _ => ProcOutcome.writeSuccess)).2 := by
  decide

/-- C6 amended: after the producer and all workers are joined, main prints
only the fixed completion line and exits with code 0, for every
enumeration result and every processing outcome; per-item outcomes appear
only as individual log events during the run, never as aggregate
counts. -/
theorem main_final_report_constant (r : Except EnumError (List DirEntry))
    (f : WorkItem → ProcOutcome) :
    (mainRun r f).2.1 = "[Main] All tasks completed" ∧ (mainRun r f).2.2 = 0 :=
  ⟨rfl, rfl⟩

/-- C8 counterexample: when enumeration fails, the producer pushes no
sentinel at all (it pushes nothing), although NUM_CONSUMERS = 4 workers
would each need one to exit. -/
theorem enumeration_error_no_sentinels_cex :
    (producer (Except.error EnumError.filesystemError)).countP isSentinel = 0 ∧
    producer (Except.error EnumError.filesystemError) = [] ∧
    NUM_CONSUMERS = 4 := by
  decide

/-- C8 amended: if enumeration fails the producer pushes nothing — no
items and no sentinels, because the exception leaves `producer` before
the sentinel loop — and the resulting system state (empty queue, all
NUM_CONSUMERS workers still running) is stuck: every worker is blocked in
pop with no sentinel ever arriving. (In the real process the uncaught
exception in the producer thread calls std::terminate, aborting all
threads; workers are not unblocked by sentinels.) -/
theorem enumeration_error_pushes_nothing (e : EnumError) :
    producer (Except.error e) = [] ∧
    Stuck (initQueueState (producer (Except.error e)) NUM_CONSUMERS) ∧
    ∀ w ∈ (initQueueState (producer (Except.error e)) NUM_CONSUMERS).workers,
      w.done = false := by
  cases e
  refine ⟨rfl, ?_, ?_⟩
  · intro st' h
    cases h
  · intro w hw
    have hw2 : w ∈ List.replicate NUM_CONSUMERS (⟨[], false⟩ : Worker) := hw
    rw [List.eq_of_mem_replicate hw2]

theorem enumeration_error_pushes_nothing_witness :
    (⟨[], false⟩ : Worker) ∈
      (initQueueState (producer (Except.error EnumError.filesystemError))
        NUM_CONSUMERS).workers ∧
    (⟨[], false⟩ : Worker).done = false :=
  ⟨by decide,
    (enumeration_error_pushes_nothing EnumError.filesystemError).2.2 ⟨[], false⟩ (by decide)⟩
